import Mathlib

/-!
Verification development for the EnergyPlus MCP server (LBNL-ETA/EnergyPlus-MCP).

This file gives a shallow embedding, in Lean, of the pure control flow of the
tool handlers and utilities of the repository, and proves or refutes the
specified properties about them.  Engine-boundary calls (the
EnergyPlusManager object, the real filesystem, timestamp parsing) are
modelled as explicit oracle parameters: each oracle reports what the
corresponding Python call would have returned or raised, and the embedded
handler reproduces, step by step, what the Python source does with that
answer.  All definitions are computable so that theorems can be checked on
concrete inputs.
-/

namespace EPMCP

/-- Python truthiness of an optional string: None and the empty string are
falsy, every other string is truthy. -/
def truthyStr : Option String → Bool
  | none => false
  | some s => s ≠ ""

/-- List-of-chars prefix test. -/
def listPre : List Char → List Char → Bool
  | [], _ => true
  | _ :: _, [] => false
  | a :: as, b :: bs => a == b && listPre as bs

/-- Substring relation of Python `needle in hay`. -/
def listSub (needle : List Char) : List Char → Bool
  | [] => needle.isEmpty
  | c :: rest => listPre needle (c :: rest) || listSub needle rest

/-- Python substring test on strings. -/
def pySubstr (needle hay : String) : Bool :=
  listSub needle.toList hay.toList

/-- Python `startswith`, over the character lists. -/
def pyStartsWith (s pre : String) : Bool :=
  listPre pre.toList s.toList

/-! Embedding of `tools/modify.py` — `modify_basic_parameters`, apply mode

Source: `energyplus_mcp_server/tools/modify.py`, lines 23-90.  Operations are
modelled by their (already `str(...).strip()`-ed) `op` name; the op-specific
`params` are absorbed into the engine oracle, which is indexed by the
operation position so that two occurrences of the same op may behave
differently.  An engine call either raises a Python exception or returns a
string; the only use the orchestrator makes of that string is
`json.loads(resp)` followed by `data.get("output_file") or
data.get("output_path")`, so the reply is modelled by the outcome of that
extraction. -/

/-- Outcome of one dispatched engine call, as observed by the orchestrator:
the call raised, or it returned a string that `json.loads` rejects, or it
returned a JSON object whose `output_file` / `output_path` keys hold the
given optional string values (`none` for an absent key or a JSON null). -/
inductive EngineReply where
  | raised (msg : String)
  | unparseable
  | obj (output_file output_path : Option String)
deriving DecidableEq, Repr

/-- Engine oracle for the orchestrator: operation index, op name and current
input path determine the observable outcome of the dispatched call. -/
abbrev ModEngine := Nat → String → String → EngineReply

/-- The eight operation names in `allowed_ops` of `modify_basic_parameters`. -/
def allowedOps : List String :=
  ["people.update", "lights.update", "electric_equipment.update",
   "infiltration.scale", "envelope.add_window_film", "envelope.add_coating",
   "outputs.add_variables", "outputs.add_meters"]

/-- Value of the Python expression `data.get("output_file") or
data.get("output_path")` (recorded verbatim in the result entry), given the
reply.  For a raised or unparseable reply the variable keeps its initial
`None`. -/
def rawOutput : EngineReply → Option String
  | .raised _ => none
  | .unparseable => none
  | .obj of op2 => if truthyStr of then of else op2

/-- One entry of the `results` list built by `modify_basic_parameters`
(tools/modify.py lines 76 and 78).  A non-raising operation is serialized as
`index`, `op`, `output_file` and has no `status` key; a raising operation is
serialized as `index`, `op`, `status := "error"`, `error`. -/
inductive ResultEntry where
  | okEntry (index : Nat) (op : String) (output_file : Option String)
  | errEntry (index : Nat) (op : String) (error : String)
deriving DecidableEq, Repr

/-- Value of the `status` key of a serialized result entry: absent for a
non-raising operation, `"error"` for a raising one. -/
def ResultEntry.statusField : ResultEntry → Option String
  | .okEntry .. => none
  | .errEntry .. => some "error"

/-- Index recorded in a result entry. -/
def ResultEntry.index : ResultEntry → Nat
  | .okEntry i _ _ => i
  | .errEntry i _ _ => i

/-- Op name recorded in a result entry. -/
def ResultEntry.opName : ResultEntry → String
  | .okEntry _ o _ => o
  | .errEntry _ o _ => o

/-- State threaded through the apply-mode loop of `modify_basic_parameters`:
`current_path` (starting at the given `idf_path`), `final_output` (starts at
`None`) and the accumulated `results` list. -/
structure ApplyState where
  current_path : String
  final_output : Option String
  results : List ResultEntry
deriving DecidableEq, Repr

/-- Dispatch of one operation (tools/modify.py lines 55-66): an op name in
the allow-list reaches the engine; any other name is answered locally with
`json.dumps({"unsupported": op_name})`, which parses back to an object with
neither output key. -/
def dispatchOp (engine : ModEngine) (idx : Nat) (opName path : String) : EngineReply :=
  if opName ∈ allowedOps then engine idx opName path else .obj none none

/-- One iteration of the apply-mode loop (tools/modify.py lines 52-78): a
raising dispatch appends an error entry and leaves the path alone; otherwise
the raw extracted output is recorded, and iff it is truthy both
`current_path` and `final_output` advance to it. -/
def applyStep (engine : ModEngine) (idx : Nat) (opName : String) (st : ApplyState) :
    ApplyState :=
  match dispatchOp engine idx opName st.current_path with
  | .raised msg => { st with results := st.results ++ [.errEntry idx opName msg] }
  | r =>
    let out := rawOutput r
    if truthyStr out then
      { current_path := out.getD "", final_output := out,
        results := st.results ++ [.okEntry idx opName out] }
    else
      { st with results := st.results ++ [.okEntry idx opName out] }

/-- The apply-mode loop, processing the operations in list order with their
`enumerate` index. -/
def applyLoop (engine : ModEngine) : List String → Nat → ApplyState → ApplyState
  | [], _, st => st
  | opName :: rest, idx, st =>
      applyLoop engine rest (idx + 1) (applyStep engine idx opName st)

/-- Apply mode of `modify_basic_parameters`: run the loop from the initial
state `current_path := idf_path`, `final_output := None`, `results := []`. -/
def modifyApply (engine : ModEngine) (idfPath : String) (ops : List String) : ApplyState :=
  applyLoop engine ops 0 ⟨idfPath, none, []⟩

/-- The `final_file` field of the response (tools/modify.py line 88):
`final_output or idf_path`. -/
def finalFile (engine : ModEngine) (idfPath : String) (ops : List String) : String :=
  (modifyApply engine idfPath ops).final_output.getD idfPath

/-- Trace of the engine-facing calls: for each operation, in execution
order, the `enumerate` index, the op name, and the `current_path` it is
dispatched against. -/
def traceLoop (engine : ModEngine) : List String → Nat → ApplyState → List (Nat × String × String)
  | [], _, _ => []
  | opName :: rest, idx, st =>
      (idx, opName, st.current_path) ::
        traceLoop engine rest (idx + 1) (applyStep engine idx opName st)

/-- Call trace of apply mode from the initial state. -/
def callTrace (engine : ModEngine) (idfPath : String) (ops : List String) :
    List (Nat × String × String) :=
  traceLoop engine ops 0 ⟨idfPath, none, []⟩

/-- The result entry produced for a single dispatch outcome. -/
def stepEntry (engine : ModEngine) (idx : Nat) (opName path : String) : ResultEntry :=
  match dispatchOp engine idx opName path with
  | .raised msg => .errEntry idx opName msg
  | r => .okEntry idx opName (rawOutput r)

/-- The `errors` mapping built by the planning loop (tools/modify.py lines
41-45), which also runs in apply mode: each index whose op name is not in
the allow-list is mapped to an unknown-op message.  The exact message text
embeds the op name between single quotes in the source; the quoting is
elided here. -/
def planErrors (ops : List String) : List (Nat × String) :=
  (ops.enum.filter fun p => p.2 ∉ allowedOps).map
    fun p => (p.1, "Unknown op " ++ p.2)

/-! Embedding of `tools/inspect.py` — `inspect_model`

Source: `energyplus_mcp_server/tools/inspect.py`, lines 13-65.  The
`canonical` dictionary of the source maps each of its nine keys to itself
(it contains no synonyms), with the looked-up token itself as the default.
Section fetching happens inside a single `try` block in the fixed source
order summary, zones, schedules, then surfaces/materials (via
`inspect_envelope_data`), then people/lights/electric_equipment (via
`inspect_internal_loads_data`); those helpers do not catch exceptions, so
any raise aborts the whole block.  The per-section engine readers are
modelled by an oracle from the section name to their outcome. -/

/-- Outcome of fetching one section from the engine. -/
inductive Fetch where
  | ok (v : String)
  | fnf (msg : String)
  | raised (msg : String)
deriving DecidableEq, Repr

/-- Section-fetch oracle. -/
abbrev InspectEngine := String → Fetch

/-- The `all_focus` list of `inspect_model`. -/
def allFocus : List String :=
  ["summary", "zones", "surfaces", "materials", "schedules", "people",
   "lights", "electric_equipment"]

/-- The `canonical` dictionary of `inspect_model`: identity on its nine
keys; `canonical.get(x, x)` therefore returns `x` for every token. -/
def canonicalMap : List (String × String) :=
  (allFocus ++ ["all"]).map fun k => (k, k)

/-- Value of `canonical.get(item, item)`. -/
def canonicalFocus (x : String) : String :=
  ((canonicalMap.lookup x).getD x)

/-- Focus normalization (tools/inspect.py lines 31-38): an absent or empty
`focus`, or any token canonicalizing to `"all"`, expands to the full
eight-section list; otherwise tokens are canonicalized and those outside
`all_focus` are silently dropped. -/
def normalizeFocus : Option (List String) → List String
  | none => allFocus
  | some fs =>
    if fs.isEmpty || fs.any (fun x => canonicalFocus x == "all") then allFocus
    else (fs.map canonicalFocus).filter (· ∈ allFocus)

/-- Grouping of the section readers inside the `try` block, in source
order.  Summary, zones and schedules are fetched and committed to
`results` by one statement each; surfaces/materials go through the single
`inspect_envelope_data` call and people/lights/electric_equipment through
the single `inspect_internal_loads_data` call, each committed by one
`results.update(...)` — so the sections of a helper group reach `results`
only when the WHOLE group succeeds: a raise inside a helper discards the
partially built helper dict.  Within each group the readers run in the
fixed order listed here. -/
def fetchGroups : List (List String) :=
  [["summary"], ["zones"], ["schedules"], ["surfaces", "materials"],
   ["people", "lights", "electric_equipment"]]

/-- Keep the first occurrence of each element, dropping later duplicates
(the key set of a Python dict built with `setdefault`). -/
def dedupKeep (l : List String) : List String :=
  l.foldl (fun acc x => if x ∈ acc then acc else acc ++ [x]) []

/-- Response of `inspect_model`, together with the trace of engine readers
actually invoked (`calls`, in invocation order). -/
structure InspectOut where
  focus : List String
  results : List (String × String)
  errors : List (String × String)
  calls : List String
deriving DecidableEq, Repr

/-- Value carried by a successful section fetch. -/
def fetchVal : Fetch → String
  | .ok v => v
  | .fnf _ => ""
  | .raised _ => ""

/-- Successful section fetch test. -/
def fetchIsOk : Fetch → Bool
  | .ok _ => true
  | _ => false

/-- Outcome of fetching one reader group (the group keys already filtered
to the normalized focus, in group order): either every reader succeeded and
the group dict plus the list of calls made are produced, or a reader
raised, the partial group dict is discarded, and only the error and the
calls made so far survive. -/
inductive GroupRes where
  | ok (entries : List (String × String)) (calls : List String)
  | fnf (msg : String) (calls : List String)
  | raised (msg : String) (calls : List String)
deriving DecidableEq, Repr

/-- Fetch the (filtered) keys of one group in order, building the helper
dict; a raise aborts the group and discards the entries built so far. -/
def fetchGroup (engine : InspectEngine) : List String → GroupRes
  | [] => .ok [] []
  | k :: rest =>
    match engine k with
    | .ok v =>
      match fetchGroup engine rest with
      | .ok es cs => .ok ((k, v) :: es) (k :: cs)
      | .fnf m cs => .fnf m (k :: cs)
      | .raised m cs => .raised m (k :: cs)
    | .fnf m => .fnf m [k]
    | .raised m => .raised m [k]

/-- The fetch block of `inspect_model`: walk the groups in source order; a
fully successful group is merged into `results`; the first raising reader
aborts the walk — a `FileNotFoundError` writes a file-not-found message
under every normalized section name (`errors.setdefault` over an empty
dict), any other exception writes its message under the single key
`"aggregation"` — and the partially built dict of the failing group never
reaches `results`. -/
def runGroups (engine : InspectEngine) (normalized : List String) :
    List (List String) → List (String × String) → List String →
    List (String × String) × List (String × String) × List String
  | [], acc, calls => (acc, [], calls)
  | g :: rest, acc, calls =>
    match fetchGroup engine (g.filter (· ∈ normalized)) with
    | .ok es cs => runGroups engine normalized rest (acc ++ es) (calls ++ cs)
    | .fnf msg cs =>
        (acc, (dedupKeep normalized).map fun s => (s, "File not found: " ++ msg),
         calls ++ cs)
    | .raised msg cs => (acc, [("aggregation", msg)], calls ++ cs)

/-- The `inspect_model` handler: normalize the focus, run the grouped
fetch block, and assemble the response (`meta.focus` is the normalized
list). -/
def inspectModel (engine : InspectEngine) (focus : Option (List String)) : InspectOut :=
  let normalized := normalizeFocus focus
  let (results, errors, calls) := runGroups engine normalized fetchGroups [] []
  ⟨normalized, results, errors, calls⟩

/-! Embedding of `tools/hvac_loop.py` — `hvac_loop_inspect`

Source: `energyplus_mcp_server/tools/hvac_loop.py`, lines 10-55.  The
handler has no `try`/`except` around its engine calls (`hvac_discover`,
`hvac_topology`, `hvac_visualize` are bare one-line delegations to
`ep_manager`), only around `json.loads`; the embedding therefore returns
`Except`, with `.error` meaning a Python exception escaped the handler to
the protocol runtime.  JSON serialization of the response envelope is
abstracted: the handler result carries the structured data the source would
serialize. -/

/-- Outcome of one HVAC engine call: the call raised, or returned a string
that `json.loads` parses to a dict with the given entries, or returned a
string that is not a JSON dict (carried through as `{"raw": ...}`). -/
inductive HvacResp where
  | raised (msg : String)
  | jsonObj (entries : List (String × String))
  | nonObj (raw : String)
deriving DecidableEq, Repr

/-- Structured `data` part of the response envelope. -/
inductive HvacData where
  | obj (entries : List (String × String))
  | raw (s : String)
deriving DecidableEq, Repr

/-- Return value of the handler when no exception escapes: a
`{meta, data}` envelope for the given action, or a structured
`{"error": ...}` payload. -/
inductive HvacRet where
  | metaData (action : String) (data : HvacData)
  | errJson (msg : String)
deriving DecidableEq, Repr

/-- The `key_map` of the discover branch. -/
def keyMap : List (String × String) :=
  [("plant", "PlantLoops"), ("air", "AirLoops"), ("condenser", "CondenserLoops")]

/-- The `types` filtering of the discover branch (lines 28-37): when the
payload is a dict and `types` is not `"all"`, keep only the mapped key if it
is present in the payload, otherwise fall back to the full payload. -/
def filterDiscover (types : String) (entries : List (String × String)) :
    List (String × String) :=
  if types == "all" then entries
  else
    match keyMap.lookup types with
    | some selKey =>
      match entries.lookup selKey with
      | some v => [(selKey, v)]
      | none => entries
    | none => entries

/-- The `hvac_loop_inspect` handler.  `discover`, `topology` and
`visualize` are the engine oracles (each may raise); a raise anywhere
propagates out of the handler. -/
def hvacLoopInspect (discover : String → HvacResp)
    (topology : String → String → HvacResp)
    (visualize : String → Option String → Option String → String → Bool → HvacResp)
    (idfPath action types : String) (loopName outputPath : Option String)
    (imageFormat : String) (showLegend : Bool) : Except String HvacRet :=
  if action == "discover" then
    match discover idfPath with
    | .raised m => .error m
    | .jsonObj entries => .ok (.metaData "discover" (.obj (filterDiscover types entries)))
    | .nonObj raw => .ok (.metaData "discover" (.raw raw))
  else if action == "topology" then
    if ¬ truthyStr loopName then
      .ok (.errJson "loop_name is required for action=topology")
    else
      match topology idfPath (loopName.getD "") with
      | .raised m => .error m
      | .jsonObj entries => .ok (.metaData "topology" (.obj entries))
      | .nonObj raw => .ok (.metaData "topology" (.raw raw))
  else if action == "visualize" then
    match visualize idfPath loopName outputPath imageFormat showLegend with
    | .raised m => .error m
    | .jsonObj entries => .ok (.metaData "visualize" (.obj entries))
    | .nonObj raw => .ok (.metaData "visualize" (.raw raw))
  else .ok (.errJson ("Unknown action " ++ action))

/-! Embedding of `tools/simulation.py` — `simulation_manager`

Source: `energyplus_mcp_server/tools/simulation.py`, lines 7-50.  The
handler has no `try`/`except` at all; engine calls may raise and then
escape.  The `settings` / `run_period` arguments are modelled as
`Option (List (String × String))` where `none` stands for an absent or
non-dict value and `some []` for an empty dict (both fail the
`isinstance(·, dict) and non-empty` test).  The fixed capability/status
JSON bodies are abstracted as constant strings. -/

/-- The `simulation_manager` handler.  `runSim` models
`ep_manager.run_simulation` and `modifySettings` models
`ep_manager.modify_simulation_settings` (its `field_updates` argument is the
assoc list, its last argument the run-period index). -/
def simulationManager
    (runSim : String → Option String → Option String → Bool → Bool → Bool → Bool →
      Except String String)
    (modifySettings : String → String → List (String × String) → Nat →
      Except String String)
    (action : String) (idfPath weather outdir : Option String)
    (annual dday readvars expand : Bool)
    (settings runPeriod : Option (List (String × String)))
    (rpIdx : Nat) (runId : Option String) : Except String String :=
  if action == "capabilities" then .ok "capabilities-descriptor"
  else if action == "run" then
    if ¬ truthyStr idfPath then .ok "Missing required parameter: idf_path"
    else
      match runSim (idfPath.getD "") weather outdir annual dday readvars expand with
      | .error m => .error m
      | .ok r => .ok ("Simulation run complete:\n" ++ r)
  else if action == "update_settings" then
    match settings with
    | some (f :: fs) =>
      if ¬ truthyStr idfPath then .ok "Missing required parameters: idf_path, settings"
      else
        match modifySettings (idfPath.getD "") "SimulationControl" (f :: fs) 0 with
        | .error m => .error m
        | .ok r => .ok ("SimulationControl updated:\n" ++ r)
    | _ => .ok "Missing required parameters: idf_path, settings"
  else if action == "update_run_period" then
    match runPeriod with
    | some (f :: fs) =>
      if ¬ truthyStr idfPath then .ok "Missing required parameters: idf_path, run_period"
      else
        match modifySettings (idfPath.getD "") "RunPeriod" (f :: fs) rpIdx with
        | .error m => .error m
        | .ok r => .ok ("RunPeriod updated:\n" ++ r)
    | _ => .ok "Missing required parameters: idf_path, run_period"
  else if action == "status" then .ok "status-descriptor"
  else .ok ("Unsupported action: " ++ action)

/-! Embedding of `server.py` — wrapper exposure flags

Source: `energyplus_mcp_server/server.py`, lines 60-101.  Nine
`EXPOSE_*_WRAPPERS` globals are computed from environment variables (lines
60-70), `_apply_tool_surface_overrides()` (lines 75-97) then overwrites
exactly those nine when the YAML `tool_surface.enable_wrappers` value is a
boolean, and only afterwards (line 101) is `EXPOSE_SIM_WRAPPERS` computed
from its environment variable — the override function neither lists it as a
global nor assigns it. -/

/-- Environment oracle: variable name to its value, `none` when unset. -/
abbrev EnvMap := String → Option String

/-- ASCII lower-casing of one character (the flag values are ASCII). -/
def pyLowerChar (c : Char) : Char :=
  if 'A' ≤ c && c ≤ 'Z' then Char.ofNat (c.toNat + 32) else c

/-- ASCII `str.lower()`. -/
def pyLower (s : String) : String :=
  String.mk (s.toList.map pyLowerChar)

/-- Boolean parsing of an exposure flag: default `"false"`, lower-cased,
true exactly on `"1"`, `"true"`, `"yes"`. -/
def parseBoolFlag (env : EnvMap) (name : String) : Bool :=
  let v := pyLower ((env name).getD "false")
  v == "1" || v == "true" || v == "yes"

/-- The ten wrapper exposure flags. -/
structure WrapperFlags where
  inspect : Bool
  output : Bool
  summary : Bool
  modify : Bool
  server : Bool
  hvac : Bool
  file : Bool
  sim : Bool
  model : Bool
  post : Bool
deriving DecidableEq, Repr

/-- Flag state after startup: env-derived values for all ten, the YAML
`enable_wrappers` override applied to the nine flags that exist when
`_apply_tool_surface_overrides` runs, and `sim` computed from the
environment afterwards.  `yamlEnableWrappers = none` models an absent key
or a non-boolean value (the `isinstance(ew, bool)` guard). -/
def startupFlags (env : EnvMap) (yamlEnableWrappers : Option Bool) : WrapperFlags :=
  let simFlag := parseBoolFlag env "MCP_EXPOSE_SIM_WRAPPERS"
  match yamlEnableWrappers with
  | some b =>
    { inspect := b, output := b, summary := b, modify := b, server := b,
      hvac := b, file := b, sim := simFlag, model := b, post := b }
  | none =>
    { inspect := parseBoolFlag env "MCP_EXPOSE_INSPECT_WRAPPERS",
      output := parseBoolFlag env "MCP_EXPOSE_OUTPUT_WRAPPERS",
      summary := parseBoolFlag env "MCP_EXPOSE_SUMMARY_WRAPPER",
      modify := parseBoolFlag env "MCP_EXPOSE_MODIFY_WRAPPERS",
      server := parseBoolFlag env "MCP_EXPOSE_SERVER_WRAPPERS",
      hvac := parseBoolFlag env "MCP_EXPOSE_HVAC_WRAPPERS",
      file := parseBoolFlag env "MCP_EXPOSE_FILE_WRAPPERS",
      sim := simFlag,
      model := parseBoolFlag env "MCP_EXPOSE_MODEL_WRAPPERS",
      post := parseBoolFlag env "MCP_EXPOSE_POST_WRAPPERS" }

/-! Embedding of `utils/error_parser.py` — `ErrorParser`

Source: `energyplus_mcp_server/utils/error_parser.py`.  The severity,
context and summary patterns are applied with `re.match`, i.e. anchored at
the start of the line, and the line has only been `rstrip()`-ed, never
left-stripped; the patterns themselves start with the literal `\*\*` (resp.
`\*{5,}`) with no leading `\s*`.  The matchers below reproduce those
regexes on right-stripped lines, where greedy matching without backtracking
is equivalent because no severity word starts with a whitespace character
and a right-stripped line cannot end in whitespace. -/

/-- Python `\s` on ASCII input: space, tab, newline, carriage return,
vertical tab, form feed. -/
def pyIsSpace (c : Char) : Bool :=
  c == ' ' || c == '\t' || c == '\n' || c == '\r' ||
    c == Char.ofNat 11 || c == Char.ofNat 12

/-- Right strip, as `str.rstrip()`. -/
def rstrip (s : String) : String :=
  String.mk ((s.toList.reverse.dropWhile pyIsSpace).reverse)

/-- Consume an exact literal. -/
def dropLit : List Char → List Char → Option (List Char)
  | [], cs => some cs
  | _ :: _, [] => none
  | l :: ls, c :: cs => if c == l then dropLit ls cs else none

/-- Consume `\s+`: at least one whitespace character, then all following
whitespace. -/
def dropWs1 : List Char → Option (List Char)
  | [] => none
  | c :: rest => if pyIsSpace c then some (rest.dropWhile pyIsSpace) else none

/-- Anchored match of `\*\*\s+<word>\s+\*\*\s+(.+)` against a
right-stripped line, returning the captured message.  This is the compiled
pattern for the word `Warning` / `Severe` / `Fatal` / `~~~`, applied with
`re.match`. -/
def markerMatch (word : String) (line : String) : Option String := do
  let cs := line.toList
  let cs ← dropLit ['*', '*'] cs
  let cs ← dropWs1 cs
  let cs ← dropLit word.toList cs
  let cs ← dropWs1 cs
  let cs ← dropLit ['*', '*'] cs
  let cs ← dropWs1 cs
  if cs.isEmpty then none else some (String.mk cs)

/-- Anchored match of the summary pattern `\*{5,}(.+)`: at least five stars
and a nonempty remainder for the capture group (a line of six or more stars
alone also matches, the group then taking the trailing stars). -/
def summaryMatch (line : String) : Bool :=
  let cs := line.toList
  let stars := cs.takeWhile (· == '*')
  let rest := cs.drop stars.length
  decide (5 ≤ stars.length) && (!rest.isEmpty || decide (6 ≤ stars.length))

/-- Character class `[A-Za-z:]` of the object-reference pattern. -/
def isRefChar (c : Char) : Bool :=
  ('A' ≤ c && c ≤ 'Z') || ('a' ≤ c && c ≤ 'z') || c == ':'

/-- Attempt of `([A-Za-z:]+)="([^"]+)"` anchored at the head of `cs`.
Because `=` is not in the class and `"` is excluded from the second group,
the greedy maximal runs are the only candidates and no backtracking is
needed. -/
def refTryAt (cs : List Char) : Option (String × String) :=
  let r := cs.takeWhile isRefChar
  if r.isEmpty then none
  else
    match cs.drop r.length with
    | '=' :: '"' :: rest =>
      let s := rest.takeWhile (· ≠ '"')
      if s.isEmpty then none
      else
        match rest.drop s.length with
        | '"' :: _ => some (String.mk r, String.mk s)
        | _ => none
    | _ => none

/-- Search semantics of the object-reference pattern (`re.search`):
leftmost match wins. -/
def refSearch : List Char → Option (String × String)
  | [] => none
  | c :: rest =>
    match refTryAt (c :: rest) with
    | some p => some p
    | none => refSearch rest

/-- Extraction of the object reference (`_extract_object_reference`): the
first `Type="Name"` pair found in the message, formatted as `Type=Name`. -/
def extractObjectRef (message : String) : Option String :=
  (refSearch message.toList).map fun p => p.1 ++ "=" ++ p.2

/-- One parsed error record (`EnergyPlusError` dataclass). -/
structure EPError where
  severity : String
  message : String
  context : List String
  line_number : Nat
  object_reference : Option String
deriving DecidableEq, Repr

/-- Scanner state of `parse_error_file`: the three severity buckets, the
optional version line, the summary buffer, and the currently open error. -/
structure ParseState where
  version : Option String
  warnings : List EPError
  severe_errors : List EPError
  fatal_errors : List EPError
  summary_info : List String
  current : Option EPError
deriving DecidableEq, Repr

/-- Store the error in the bucket of its severity (`_store_error`). -/
def storeError (st : ParseState) (e : EPError) : ParseState :=
  if e.severity == "Warning" then { st with warnings := st.warnings ++ [e] }
  else if e.severity == "Severe" then { st with severe_errors := st.severe_errors ++ [e] }
  else if e.severity == "Fatal" then { st with fatal_errors := st.fatal_errors ++ [e] }
  else st

/-- Flush the currently open error, if any, into its bucket. -/
def flushCurrent (st : ParseState) : ParseState :=
  match st.current with
  | some e => { storeError st e with current := none }
  | none => st

/-- Open a new error of the given severity (closing the previous one),
with its 1-based line number and the object reference extracted from the
message at creation time. -/
def openError (st : ParseState) (severity message : String) (lineNum : Nat) : ParseState :=
  let st := flushCurrent st
  { st with current := some ⟨severity, message, [], lineNum, extractObjectRef message⟩ }

/-- Processing of one raw line at 1-based number `lineNum`
(`parse_error_file` lines 63-126): right-strip; skip blank lines; capture a
first line starting with `Program Version`; then try the warning, severe,
fatal, context and summary patterns in that order.  A context line extends
the open error only if one is open, otherwise it falls through to the
summary check; a summary line closes the open error and is buffered; an
unmatched line is ignored. -/
def parseLine (st : ParseState) (lineNum : Nat) (raw : String) : ParseState :=
  let line := rstrip raw
  if line == "" then st
  else if lineNum == 1 && pyStartsWith line "Program Version" then
    { st with version := some line }
  else
    match markerMatch "Warning" line with
    | some m => openError st "Warning" m lineNum
    | none =>
      match markerMatch "Severe" line with
      | some m => openError st "Severe" m lineNum
      | none =>
        match markerMatch "Fatal" line with
        | some m => openError st "Fatal" m lineNum
        | none =>
          match markerMatch "~~~" line, st.current with
          | some t, some e =>
            { st with current := some { e with context := e.context ++ [t] } }
          | _, _ =>
            if summaryMatch line then
              let st := flushCurrent st
              { st with summary_info := st.summary_info ++ [line] }
            else st

/-- Scan all lines with their 1-based numbers and flush the last open
error at end of file. -/
def parseErrLines (lines : List String) : ParseState :=
  flushCurrent <|
    (lines.enum.foldl (fun st p => parseLine st (p.1 + 1) p.2)
      ⟨none, [], [], [], [], none⟩)

/-! Embedding of `tools/server.py` — `server_manager`, `logs` action

Source: `energyplus_mcp_server/tools/server.py`, lines 72-112.  For each
selected existing file the source takes `f.readlines()[-max(1, lines):]`
FIRST, then filters by `contains`, then filters by `since` via
`(_parse_line_ts(ln) or datetime.min) >= since_dt`.  The `truncated` flag
is initialized to `False` on line 82 and never assigned again.  Timestamps
are modelled as naturals with `datetime.min = 0`; the `strptime` parse of a
19-character prefix is an oracle. -/

/-- The last `k` elements of a list, as Python `l[-k:]` for `k ≥ 1`. -/
def takeLast (k : Nat) (l : List String) : List String :=
  l.drop (l.length - k)

/-- Timestamp value of a line: `strptime(line[:19], "%Y-%m-%d %H:%M:%S")`,
with the parse itself as an oracle on the 19-character prefix; `none` means
the parse raised. -/
def parseLineTs (tsOf : String → Option Nat) (ln : String) : Option Nat :=
  tsOf (String.mk (ln.toList.take 19))

/-- Per-file line selection of the `logs` action: truncate to the last
`max 1 nLines` lines, then keep lines containing `contains` (skipped when
the argument is falsy), then, when a parsed `since` instant is present,
keep lines whose `(parsed timestamp or datetime.min)` is at least it. -/
def logsSelect (fileLines : List String) (nLines : Nat) (contains : Option String)
    (sinceDt : Option Nat) (tsOf : String → Option Nat) : List String :=
  let buf := takeLast (max 1 nLines) fileLines
  let buf := if truthyStr contains then buf.filter (fun ln => pySubstr (contains.getD "") ln)
             else buf
  match sinceDt with
  | some t => buf.filter fun ln => (parseLineTs tsOf ln).getD 0 ≥ t
  | none => buf

/-- The `truncated` flag of the `logs` response: initialized `False`, never
assigned. -/
def logsTruncatedFlag : Bool := false

/-- Line selection as the specification describes it, for comparison with
`logsSelect`: filter the full file by `contains`, then by `since` keeping
lines whose timestamp fails to parse, then truncate to the last `nLines`
entries, the truncated flag set when truncation occurred. -/
def specLogsSelect (fileLines : List String) (nLines : Nat) (contains : Option String)
    (sinceDt : Option Nat) (tsOf : String → Option Nat) : List String × Bool :=
  let buf := if truthyStr contains then
      fileLines.filter (fun ln => pySubstr (contains.getD "") ln)
    else fileLines
  let buf := match sinceDt with
    | some t => buf.filter fun ln =>
        match parseLineTs tsOf ln with
        | some v => v ≥ t
        | none => true
    | none => buf
  (takeLast nLines buf, decide (nLines < buf.length))

/-! Embedding of `tools/server.py` — `server_manager`, `clear_logs` action

Source: `energyplus_mcp_server/tools/server.py`, lines 114-141.  The
filesystem is modelled as an association list from path to file content
(first entry wins); `Path.rename` moves the content from source to
destination, overwriting any destination entry.  Individual renames that
raise are modelled by a failure oracle on the source path and are skipped.
The UTC timestamp string is a parameter. -/

/-- Filesystem model: association list path to content. -/
abbrev Fs := List (String × String)

/-- First-match lookup. -/
def fsLookup : Fs → String → Option String
  | [], _ => none
  | e :: rest, p => if e.1 == p then some e.2 else fsLookup rest p

/-- Existence test, as `Path.exists`. -/
def fsExists (fs : Fs) (p : String) : Bool :=
  (fsLookup fs p).isSome

/-- Remove every entry at a path. -/
def fsRemove (fs : Fs) (p : String) : Fs :=
  fs.filter fun e => !(e.1 == p)

/-- Rename, as `Path.rename`: move the content at `src` to `dst`
(overwriting `dst`);
no-op when `src` is absent. -/
def fsRename (fs : Fs) (src dst : String) : Fs :=
  match fsLookup fs src with
  | some c => fsRemove (fsRemove fs src) dst ++ [(dst, c)]
  | none => fs

/-- File name part of a path (after the last slash). -/
def fileNameOf (p : String) : String :=
  String.mk ((p.toList.reverse.takeWhile (· ≠ '/')).reverse)

/-- Directory part of a path, including the trailing slash. -/
def dirPartOf (p : String) : String :=
  String.mk (p.toList.take (p.toList.length - (fileNameOf p).toList.length))

/-- Stem and suffix of a file name (`Path.stem` / `Path.suffix`), for names whose extension
dot is not the leading character. -/
def stemSuffix (name : String) : String × String :=
  let cs := name.toList
  let ext := cs.reverse.takeWhile (· ≠ '.')
  if ext.length == cs.length then (name, "")
  else if ext.length + 1 == cs.length then (name, "")
  else (String.mk (cs.take (cs.length - ext.length - 1)),
        String.mk ('.' :: ext.reverse))

/-- Backup destination: the path with its file name replaced by the stem,
the literal `_backup_`, the timestamp, and the original suffix, as built by
the `with_name` call of the source. -/
def backupPath (p ts : String) : String :=
  let (stem, suffix) := stemSuffix (fileNameOf p)
  dirPartOf p ++ (stem ++ "_backup_" ++ ts ++ suffix)

/-- Path of the server log under the workspace log directory. -/
def serverLogPath (dir : String) : String := dir ++ "/energyplus_mcp_server.log"

/-- Path of the error log under the workspace log directory. -/
def errorLogPath (dir : String) : String := dir ++ "/energyplus_mcp_errors.log"

/-- The `to_rotate` selection of `clear_logs`. -/
def rotateTargets (dir select : String) : List String :=
  (if select == "server" || select == "both" then [serverLogPath dir] else []) ++
    (if select == "error" || select == "both" then [errorLogPath dir] else [])

/-- Result of `clear_logs`: the filesystem afterwards, the rename plan, and
the renames that were performed. -/
structure ClearOut where
  fs : Fs
  plan : List (String × String)
  rotated : List (String × String)
deriving DecidableEq, Repr

/-- Apply-mode rename loop: for each plan item, re-check that the source
still exists, then rename unless the rename raises (failure oracle), in
which case the item is skipped without failing the call. -/
def rotateLoop (renameFails : String → Bool) :
    List (String × String) → Fs → List (String × String) → Fs × List (String × String)
  | [], fs, rotated => (fs, rotated)
  | (src, dst) :: rest, fs, rotated =>
    if fsExists fs src then
      if renameFails src then rotateLoop renameFails rest fs rotated
      else rotateLoop renameFails rest (fsRename fs src dst) (rotated ++ [(src, dst)])
    else rotateLoop renameFails rest fs rotated

/-- The `clear_logs` action: build the plan over the selected existing log
files; dry-run mode returns the plan and leaves the filesystem untouched;
apply mode performs the renames, skipping individual failures. -/
def clearLogs (fs : Fs) (dir select mode ts : String) (renameFails : String → Bool) :
    ClearOut :=
  let plan := ((rotateTargets dir select).filter (fsExists fs ·)).map
    fun p => (p, backupPath p ts)
  if mode == "dry_run" then ⟨fs, plan, []⟩
  else
    let (fs2, rotated) := rotateLoop renameFails plan fs []
    ⟨fs2, plan, rotated⟩

/-! Embedding of `utils/error_parser.py` — `analyze_root_cause`

Source: `energyplus_mcp_server/utils/error_parser.py`, lines 213-248.  The
input is the parsed-result mapping; only its `fatal_errors` and
`severe_errors` keys are read (via `.get`, so an absent key behaves as
`None` / the default `[]`).  Each list element is a dict whose `"message"`
item is accessed with `[...]` (raising `KeyError` when absent) and whose
`"object_reference"` item is accessed with `.get` (no raise); elements are
modelled accordingly, and the whole analysis runs in `Except` so that a
raised access propagates exactly where Python would raise. -/

/-- One error-as-mapping element: the optional `"message"` item (absent
means access raises) and the `"object_reference"` item (`none` for absent
or null). -/
structure ErrVal where
  message : Option String
  object_reference : Option String
deriving DecidableEq, Repr

/-- Subscript access to the message item of one error dict (raises
`KeyError` when absent). -/
def getMessage (e : ErrVal) : Except String String :=
  match e.message with
  | some m => .ok m
  | none => .error "KeyError: message"

/-- Result of the analysis (`affected_objects` is a Python set converted to
a list; the model fixes first-occurrence order, which the source leaves
unspecified). -/
structure RootCause where
  primary_issue : Option String
  patterns : List (String × Nat × String)
  affected_objects : List String
deriving DecidableEq, Repr

/-- Analysis of the root cause (`analyze_root_cause`): primary issue from the first fatal else first
severe error; the single `zone_reference` pattern counting severe+fatal
messages containing `invalid Zone Name`; affected objects from truthy
`object_reference` values of severe+fatal errors. -/
def analyzeRootCause (fatal severe : Option (List ErrVal)) : Except String RootCause := do
  let fatalL := fatal.getD []
  let severeL := severe.getD []
  let primary : Option String ←
    match fatalL with
    | f :: _ => Except.map some (getMessage f)
    | [] =>
      match severeL with
      | s :: _ => Except.map some (getMessage s)
      | [] => pure none
  let allErrs := severeL ++ fatalL
  let msgs ← allErrs.mapM getMessage
  let zoneCount := (msgs.filter fun m => pySubstr "invalid Zone Name" m).length
  let pats := if zoneCount == 0 then []
    else [("zone_reference", zoneCount,
           "Multiple surfaces reference non-existent zone")]
  let affected := dedupKeep (allErrs.filterMap fun e =>
    match e.object_reference with
    | some r => if r == "" then none else some r
    | none => none)
  pure ⟨primary, pats, affected⟩

/-! Concrete fixtures used by counterexamples and witnesses. -/

/-- Engine whose first operation writes `o1.idf` and whose second answers
with an `output_path` key; later calls raise. -/
def engChain : ModEngine := fun idx _ _ =>
  if idx == 0 then .obj (some "o1.idf") none
  else if idx == 1 then .obj none (some "o2.idf")
  else .raised "boom"

/-- Engine that always reports a written output file. -/
def engStatus : ModEngine := fun _ _ _ => .obj (some "out1.idf") none

/-- Section reader that always succeeds. -/
def engAllOk : InspectEngine := fun k => .ok ("data:" ++ k)

/-- Section reader raising `FileNotFoundError` for the zones section. -/
def engFnfZones : InspectEngine := fun k =>
  if k == "zones" then .fnf "zmsg" else .ok ("data:" ++ k)

/-- Section reader raising `FileNotFoundError` for the materials section,
exercising a failure in the middle of the envelope helper group. -/
def engFnfMaterials : InspectEngine := fun k =>
  if k == "materials" then .fnf "mmsg" else .ok ("data:" ++ k)

/-- HVAC discover oracle that raises a missing-file error. -/
def discRaise : String → HvacResp := fun _ => .raised "FileNotFoundError: x.idf"

/-- HVAC topology oracle that returns an unparseable string. -/
def topoPlain : String → String → HvacResp := fun _ _ => .nonObj "t"

/-- HVAC visualize oracle that returns an unparseable string. -/
def vizPlain : String → Option String → Option String → String → Bool → HvacResp :=
  fun _ _ _ _ _ => .nonObj "v"

/-- Simulation runner oracle that raises a missing-file error. -/
def runSimRaise : String → Option String → Option String → Bool → Bool → Bool → Bool →
    Except String String := fun _ _ _ _ _ _ _ => .error "FileNotFoundError: x.idf"

/-- Settings mutator oracle that succeeds. -/
def modSetOk : String → String → List (String × String) → Nat → Except String String :=
  fun _ _ _ _ => .ok "updated"

/-- Timestamp oracle on which every parse fails. -/
def tsNone : String → Option Nat := fun _ => none

/-- Workspace with both log files present. -/
def fsLogs : Fs := [(serverLogPath "d", "S"), (errorLogPath "d", "E")]

/-- Rename failure oracle that never fails. -/
def failsNone : String → Bool := fun _ => false

/-- Environment with every variable unset. -/
def envUnset : EnvMap := fun _ => none

/-! Lemma layer for the modification orchestrator. -/

lemma truthyStr_exists {o : Option String} (h : truthyStr o = true) : ∃ s, o = some s := by
  cases o with
  | none => simp [truthyStr] at h
  | some s => exact ⟨s, rfl⟩

lemma applyStep_final (engine : ModEngine) (idx : Nat) (opName : String) (st : ApplyState) :
    (applyStep engine idx opName st).final_output =
      (let out := rawOutput (dispatchOp engine idx opName st.current_path)
       if truthyStr out then out else st.final_output) := by
  unfold applyStep
  cases hd : dispatchOp engine idx opName st.current_path with
  | raised m => simp [rawOutput, truthyStr]
  | unparseable => simp [rawOutput, truthyStr]
  | obj a b =>
    by_cases ht : truthyStr (rawOutput (EngineReply.obj a b)) = true <;> simp [ht]

lemma applyStep_results (engine : ModEngine) (idx : Nat) (opName : String) (st : ApplyState) :
    (applyStep engine idx opName st).results =
      st.results ++ [stepEntry engine idx opName st.current_path] := by
  unfold applyStep stepEntry
  cases hd : dispatchOp engine idx opName st.current_path with
  | raised m => simp
  | unparseable =>
    by_cases ht : truthyStr (rawOutput EngineReply.unparseable) = true <;> simp [ht]
  | obj a b =>
    by_cases ht : truthyStr (rawOutput (EngineReply.obj a b)) = true <;> simp [ht]

lemma applyStep_inv {idf : String} (engine : ModEngine) (idx : Nat) (opName : String)
    (st : ApplyState) (h : st.current_path = st.final_output.getD idf) :
    (applyStep engine idx opName st).current_path
      = (applyStep engine idx opName st).final_output.getD idf := by
  unfold applyStep
  cases hd : dispatchOp engine idx opName st.current_path with
  | raised m => simpa using h
  | unparseable => simpa [rawOutput, truthyStr] using h
  | obj a b =>
    by_cases ht : truthyStr (rawOutput (EngineReply.obj a b)) = true
    · obtain ⟨s, hs⟩ := truthyStr_exists ht
      rw [hs] at ht
      simp [hs, ht]
    · simpa [ht] using h

lemma applyLoop_inv {idf : String} (engine : ModEngine) (ops : List String) :
    ∀ (idx : Nat) (st : ApplyState), st.current_path = st.final_output.getD idf →
      (applyLoop engine ops idx st).current_path
        = (applyLoop engine ops idx st).final_output.getD idf := by
  induction ops with
  | nil => intro idx st h; simpa [applyLoop] using h
  | cons op rest ih =>
    intro idx st h
    simpa [applyLoop] using ih (idx + 1) _ (applyStep_inv engine idx op st h)

lemma modifyApply_inv (engine : ModEngine) (idfPath : String) (ops : List String) :
    (modifyApply engine idfPath ops).current_path
      = (modifyApply engine idfPath ops).final_output.getD idfPath :=
  applyLoop_inv engine ops 0 ⟨idfPath, none, []⟩ rfl

lemma applyLoop_append (engine : ModEngine) (ys : List String) :
    ∀ (xs : List String) (idx : Nat) (st : ApplyState),
      applyLoop engine (xs ++ ys) idx st
        = applyLoop engine ys (idx + xs.length) (applyLoop engine xs idx st) := by
  intro xs
  induction xs with
  | nil => intro idx st; simp [applyLoop]
  | cons x rest ih =>
    intro idx st
    rw [List.cons_append]
    show applyLoop engine (rest ++ ys) (idx + 1) (applyStep engine idx x st) = _
    rw [ih (idx + 1) (applyStep engine idx x st)]
    have harith : idx + 1 + rest.length = idx + (rest.length + 1) := by omega
    rw [harith]
    rfl

lemma traceLoop_length (engine : ModEngine) (xs : List String) :
    ∀ (idx : Nat) (st : ApplyState), (traceLoop engine xs idx st).length = xs.length := by
  induction xs with
  | nil => intro idx st; rfl
  | cons x rest ih => intro idx st; simp [traceLoop, ih]

lemma traceLoop_append (engine : ModEngine) (ys : List String) :
    ∀ (xs : List String) (idx : Nat) (st : ApplyState),
      traceLoop engine (xs ++ ys) idx st
        = traceLoop engine xs idx st
          ++ traceLoop engine ys (idx + xs.length) (applyLoop engine xs idx st) := by
  intro xs
  induction xs with
  | nil => intro idx st; simp [traceLoop, applyLoop]
  | cons x rest ih =>
    intro idx st
    rw [List.cons_append]
    show (idx, x, st.current_path) :: traceLoop engine (rest ++ ys) (idx + 1) _
        = ((idx, x, st.current_path) :: traceLoop engine rest (idx + 1) _) ++ _
    rw [List.cons_append, ih (idx + 1) (applyStep engine idx x st)]
    have harith : idx + 1 + rest.length = idx + (rest.length + 1) := by omega
    rw [harith]
    rfl

lemma applyLoop_results (engine : ModEngine) (xs : List String) :
    ∀ (idx : Nat) (st : ApplyState),
      (applyLoop engine xs idx st).results
        = st.results ++ (traceLoop engine xs idx st).map
            (fun t => stepEntry engine t.1 t.2.1 t.2.2) := by
  induction xs with
  | nil => intro idx st; simp [applyLoop, traceLoop]
  | cons x rest ih =>
    intro idx st
    show (applyLoop engine rest (idx + 1) (applyStep engine idx x st)).results = _
    rw [ih (idx + 1) (applyStep engine idx x st), applyStep_results]
    simp [traceLoop]

lemma length_take_of_lt {α : Type} {l : List α} {i : Nat} (h : i < l.length) :
    (l.take i).length = i := by
  simp [List.length_take]
  omega

lemma callTrace_get (engine : ModEngine) (idfPath : String) (ops : List String)
    (i : Nat) (h : i < ops.length) :
    (callTrace engine idfPath ops)[i]?
      = some (i, ops[i], (modifyApply engine idfPath (ops.take i)).current_path) := by
  have hsplit : ops = ops.take i ++ (ops[i] :: ops.drop (i + 1)) := by
    rw [← List.drop_eq_getElem_cons h, List.take_append_drop]
  unfold callTrace
  conv_lhs => rw [hsplit]
  rw [traceLoop_append]
  have hlen : (traceLoop engine (ops.take i) 0 ⟨idfPath, none, []⟩).length = i := by
    rw [traceLoop_length]
    exact length_take_of_lt h
  rw [List.getElem?_append_right (le_of_eq hlen), hlen]
  simp [traceLoop, modifyApply, length_take_of_lt h]

lemma modifyApply_take_succ (engine : ModEngine) (idfPath : String) (ops : List String)
    (i : Nat) (h : i < ops.length) :
    modifyApply engine idfPath (ops.take (i + 1))
      = applyStep engine i ops[i] (modifyApply engine idfPath (ops.take i)) := by
  have hq : ops[i]? = some ops[i] := List.getElem?_eq_getElem h
  unfold modifyApply
  rw [List.take_succ, hq, Option.toList_some, applyLoop_append]
  rw [length_take_of_lt h]
  simp [applyLoop]

/-- Claim C1: in apply mode, `modify_basic_parameters` executes the
operations strictly in list order while threading a current input path that
starts at `idf_path`: the i-th engine-facing call carries index i, the i-th
op name, and an input path equal to the output file of the last earlier
operation that produced one (or `idf_path` when none did); after the i-th
operation, `final_output` advances to its extracted output file exactly
when that extraction is truthy, and the response field `final_file` equals
the last such output file, or `idf_path` when no operation produced one. -/
theorem modify_apply_chaining (engine : ModEngine) (idfPath : String)
    (ops : List String) (i : Nat) (h : i < ops.length) :
    (callTrace engine idfPath ops).length = ops.length ∧
    (callTrace engine idfPath ops)[i]? = some (i, ops[i],
      (modifyApply engine idfPath (ops.take i)).final_output.getD idfPath) ∧
    (modifyApply engine idfPath (ops.take (i + 1))).final_output =
      (let out := rawOutput (dispatchOp engine i ops[i]
        ((modifyApply engine idfPath (ops.take i)).final_output.getD idfPath))
       if truthyStr out then out
       else (modifyApply engine idfPath (ops.take i)).final_output) ∧
    finalFile engine idfPath ops
      = (modifyApply engine idfPath ops).final_output.getD idfPath := by
  have hinv := modifyApply_inv engine idfPath (ops.take i)
  refine ⟨traceLoop_length engine ops 0 _, ?_, ?_, rfl⟩
  · rw [callTrace_get engine idfPath ops i h, hinv]
  · rw [modifyApply_take_succ engine idfPath ops i h, applyStep_final, hinv]

/-- Witness for C1 at a concrete engine and operation list. -/
theorem modify_apply_chaining_witness :
    (0 < (["infiltration.scale", "outputs.add_variables"] : List String).length) ∧
    ((callTrace engChain "in.idf" ["infiltration.scale", "outputs.add_variables"]).length = 2 ∧
     (callTrace engChain "in.idf" ["infiltration.scale", "outputs.add_variables"])[0]? =
       some (0, "infiltration.scale",
         (modifyApply engChain "in.idf"
           (["infiltration.scale", "outputs.add_variables"].take 0)).final_output.getD "in.idf") ∧
     (modifyApply engChain "in.idf"
        (["infiltration.scale", "outputs.add_variables"].take 1)).final_output =
       (let out := rawOutput (dispatchOp engChain 0 "infiltration.scale"
          ((modifyApply engChain "in.idf"
            (["infiltration.scale", "outputs.add_variables"].take 0)).final_output.getD "in.idf"))
        if truthyStr out then out
        else (modifyApply engChain "in.idf"
          (["infiltration.scale", "outputs.add_variables"].take 0)).final_output) ∧
     finalFile engChain "in.idf" ["infiltration.scale", "outputs.add_variables"]
       = (modifyApply engChain "in.idf"
           ["infiltration.scale", "outputs.add_variables"]).final_output.getD "in.idf") :=
  ⟨by decide,
   modify_apply_chaining engChain "in.idf" ["infiltration.scale", "outputs.add_variables"]
     0 (by decide)⟩

lemma stepEntry_index (engine : ModEngine) (idx : Nat) (opName path : String) :
    (stepEntry engine idx opName path).index = idx := by
  unfold stepEntry
  cases dispatchOp engine idx opName path <;> rfl

lemma stepEntry_opName (engine : ModEngine) (idx : Nat) (opName path : String) :
    (stepEntry engine idx opName path).opName = opName := by
  unfold stepEntry
  cases dispatchOp engine idx opName path <;> rfl

lemma stepEntry_status (engine : ModEngine) (idx : Nat) (opName path : String) :
    (stepEntry engine idx opName path).statusField = some "error"
      ↔ ∃ msg, dispatchOp engine idx opName path = .raised msg := by
  unfold stepEntry
  cases hd : dispatchOp engine idx opName path with
  | raised m => simp [ResultEntry.statusField]
  | unparseable => simp [ResultEntry.statusField]
  | obj a b => simp [ResultEntry.statusField]

lemma modifyApply_results (engine : ModEngine) (idfPath : String) (ops : List String) :
    (modifyApply engine idfPath ops).results
      = (callTrace engine idfPath ops).map
          (fun t => stepEntry engine t.1 t.2.1 t.2.2) := by
  unfold modifyApply callTrace
  rw [applyLoop_results]
  rfl

/-- Claim C2 counterexample: at the registered implementation
(`tools/modify.py`), apply mode on `[people.update, bogus.op]` against an
engine whose calls all succeed produces two result entries NEITHER of which
carries the status the claim requires — the successful first entry is
serialized without any `status` key (not `"applied"`), and the unknown
second op is answered locally (never dispatched), yielding an entry without
`status: "error"`; the unknown op is instead recorded in the top-level
`errors` mapping under its index. -/
theorem modify_status_counterexample :
    ((modifyApply engStatus "in.idf" ["people.update", "bogus.op"]).results.map
        ResultEntry.statusField) = [none, none] ∧
    ¬ (((modifyApply engStatus "in.idf" ["people.update", "bogus.op"]).results.map
        ResultEntry.statusField) = [some "applied", some "error"]) ∧
    planErrors ["people.update", "bogus.op"] = [(1, "Unknown op bogus.op")] := by
  decide

/-- Claim C2 (amended): in apply mode, `modify_basic_parameters` records
exactly one result entry per operation, in order; the i-th entry carries
index i and the i-th op name; a successful (non-raising) operation yields
an entry with no `status` key at all (serialized as index, op,
output_file), while an operation whose dispatch raises yields
`status := "error"`; an op name outside the allow-list is answered locally
in the `errors` mapping of the planning pass and still receives a
status-free result entry; a per-operation failure never aborts the
remaining operations (the results list always has one entry per op) and
the call returns a normal response. -/
theorem modify_results_amended (engine : ModEngine) (idfPath : String)
    (ops : List String) (i : Nat) (h : i < ops.length) :
    (modifyApply engine idfPath ops).results.length = ops.length ∧
    (modifyApply engine idfPath ops).results[i]?
      = some (stepEntry engine i ops[i]
          ((modifyApply engine idfPath (ops.take i)).current_path)) ∧
    (stepEntry engine i ops[i]
        ((modifyApply engine idfPath (ops.take i)).current_path)).index = i ∧
    (stepEntry engine i ops[i]
        ((modifyApply engine idfPath (ops.take i)).current_path)).opName = ops[i] ∧
    ((stepEntry engine i ops[i]
        ((modifyApply engine idfPath (ops.take i)).current_path)).statusField
          = some "error"
      ↔ ∃ msg, dispatchOp engine i ops[i]
          ((modifyApply engine idfPath (ops.take i)).current_path) = .raised msg) := by
  refine ⟨?_, ?_, stepEntry_index _ _ _ _, stepEntry_opName _ _ _ _, stepEntry_status _ _ _ _⟩
  · rw [modifyApply_results, List.length_map]
    exact traceLoop_length engine ops 0 _
  · rw [modifyApply_results, List.getElem?_map, callTrace_get engine idfPath ops i h]
    rfl

/-- Witness for the amended C2 at a concrete engine and operation list. -/
theorem modify_results_amended_witness :
    (1 < (["people.update", "bogus.op"] : List String).length) ∧
    ((modifyApply engStatus "in.idf" ["people.update", "bogus.op"]).results.length = 2 ∧
     (modifyApply engStatus "in.idf" ["people.update", "bogus.op"]).results[1]?
       = some (stepEntry engStatus 1 "bogus.op"
           ((modifyApply engStatus "in.idf"
             (["people.update", "bogus.op"].take 1)).current_path)) ∧
     (stepEntry engStatus 1 "bogus.op"
         ((modifyApply engStatus "in.idf"
           (["people.update", "bogus.op"].take 1)).current_path)).index = 1 ∧
     (stepEntry engStatus 1 "bogus.op"
         ((modifyApply engStatus "in.idf"
           (["people.update", "bogus.op"].take 1)).current_path)).opName = "bogus.op" ∧
     ((stepEntry engStatus 1 "bogus.op"
         ((modifyApply engStatus "in.idf"
           (["people.update", "bogus.op"].take 1)).current_path)).statusField
            = some "error"
       ↔ ∃ msg, dispatchOp engStatus 1 "bogus.op"
           ((modifyApply engStatus "in.idf"
             (["people.update", "bogus.op"].take 1)).current_path) = .raised msg)) :=
  ⟨by decide,
   modify_results_amended engStatus "in.idf" ["people.update", "bogus.op"] 1 (by decide)⟩

/-! Lemma layer for the inspection aggregator. -/

lemma filter_mem_nil (g : List String) :
    g.filter (· ∈ ([] : List String)) = [] := by
  rw [List.filter_eq_nil_iff]
  intro a _
  simp

lemma runGroups_nil_normalized (engine : InspectEngine) :
    ∀ (gs : List (List String)) (acc : List (String × String)) (calls : List String),
      runGroups engine [] gs acc calls = (acc, [], calls) := by
  intro gs
  induction gs with
  | nil => intro acc calls; rfl
  | cons g rest ih =>
    intro acc calls
    simp [runGroups, filter_mem_nil, fetchGroup, ih]

/-- Claim C3 counterexample: `inspect_model` with `focus =
["not_a_section"]` does not abort with an invalid-input error — the unknown
token is silently dropped during normalization, and the call returns an
EMPTY errors mapping (no `errors.focus` entry) along with empty results,
without invoking any engine reader. -/
theorem inspect_unknown_focus_counterexample :
    inspectModel engAllOk (some ["not_a_section"])
      = ⟨[], [], [], []⟩ ∧
    ¬ ((inspectModel engAllOk (some ["not_a_section"])).errors ≠ []) := by
  decide

/-- Claim C3 (amended): a focus token that canonicalizes outside the eight
known sections is silently dropped rather than rejected; when every token
of a non-empty focus is unknown (and none canonicalizes to `all`), the call
returns empty results AND an empty errors mapping, with no engine reader
invoked — there is no up-front invalid-input error. -/
theorem inspect_unknown_focus_amended (engine : InspectEngine) (fs : List String)
    (hne : fs ≠ [])
    (hbad : ∀ x ∈ fs, canonicalFocus x ∉ allFocus ∧ canonicalFocus x ≠ "all") :
    inspectModel engine (some fs) = ⟨[], [], [], []⟩ := by
  have h1 : fs.isEmpty = false := List.isEmpty_eq_false.mpr hne
  have h2 : fs.any (fun x => canonicalFocus x == "all") = false := by
    rw [List.any_eq_false]
    intro x hx
    simp [(hbad x hx).2]
  have h3 : (fs.map canonicalFocus).filter (· ∈ allFocus) = [] := by
    rw [List.filter_eq_nil_iff]
    intro a ha
    obtain ⟨x, hx, rfl⟩ := List.mem_map.mp ha
    simpa using (hbad x hx).1
  have hnorm : normalizeFocus (some fs) = [] := by
    unfold normalizeFocus
    simp [h1, h2, h3]
  unfold inspectModel
  rw [hnorm]
  simp [runGroups_nil_normalized]

/-- Witness for the amended C3 at the concrete bad focus list. -/
theorem inspect_unknown_focus_amended_witness :
    ((["not_a_section"] : List String) ≠ [] ∧
      ∀ x ∈ (["not_a_section"] : List String),
        canonicalFocus x ∉ allFocus ∧ canonicalFocus x ≠ "all") ∧
    inspectModel engAllOk (some ["not_a_section"]) = ⟨[], [], [], []⟩ :=
  ⟨⟨by decide, by decide⟩,
   inspect_unknown_focus_amended engAllOk ["not_a_section"] (by decide) (by decide)⟩

lemma fetchGroup_all_ok (engine : InspectEngine) :
    ∀ (ks : List String), (∀ j ∈ ks, fetchIsOk (engine j) = true) →
      fetchGroup engine ks = .ok (ks.map fun j => (j, fetchVal (engine j))) ks := by
  intro ks
  induction ks with
  | nil => intro _; rfl
  | cons j rest ih =>
    intro hok
    have hj := hok j (List.mem_cons_self j rest)
    cases he : engine j with
    | ok v =>
      simp only [fetchGroup, he]
      rw [ih (fun x hx => hok x (List.mem_cons_of_mem j hx))]
      simp [fetchVal, he]
    | fnf m => rw [he] at hj; simp [fetchIsOk] at hj
    | raised m => rw [he] at hj; simp [fetchIsOk] at hj

lemma fetchGroup_fail (engine : InspectEngine) :
    ∀ (pre : List String) (k : String) (rest : List String),
      (∀ j ∈ pre, fetchIsOk (engine j) = true) →
      (∀ m, engine k = .fnf m →
        fetchGroup engine (pre ++ k :: rest) = .fnf m (pre ++ [k])) ∧
      (∀ m, engine k = .raised m →
        fetchGroup engine (pre ++ k :: rest) = .raised m (pre ++ [k])) := by
  intro pre
  induction pre with
  | nil =>
    intro k rest _
    constructor <;> intro m hk <;> simp [fetchGroup, hk]
  | cons j prest ih =>
    intro k rest hok
    have hj := hok j (List.mem_cons_self _ _)
    have ihk := ih k rest (fun x hx => hok x (List.mem_cons_of_mem j hx))
    cases he : engine j with
    | ok v =>
      constructor <;> intro m hk
      · rw [List.cons_append]
        simp only [fetchGroup, he]
        rw [ihk.1 m hk]
        rfl
      · rw [List.cons_append]
        simp only [fetchGroup, he]
        rw [ihk.2 m hk]
        rfl
    | fnf m2 => rw [he] at hj; simp [fetchIsOk] at hj
    | raised m2 => rw [he] at hj; simp [fetchIsOk] at hj

lemma runGroups_ok_prefix (engine : InspectEngine) (normalized : List String) :
    ∀ (gpre rest : List (List String)) (acc : List (String × String))
      (calls : List String),
      (∀ gr ∈ gpre, ∀ j ∈ gr.filter (· ∈ normalized), fetchIsOk (engine j) = true) →
      runGroups engine normalized (gpre ++ rest) acc calls
        = runGroups engine normalized rest
            (acc ++ (gpre.map fun gr => (gr.filter (· ∈ normalized)).map
              fun j => (j, fetchVal (engine j))).flatten)
            (calls ++ (gpre.map fun gr => gr.filter (· ∈ normalized)).flatten) := by
  intro gpre
  induction gpre with
  | nil => intro rest acc calls _; simp
  | cons g grest ih =>
    intro rest acc calls hok
    have hg : ∀ j ∈ g.filter (· ∈ normalized), fetchIsOk (engine j) = true :=
      hok g (List.mem_cons_self _ _)
    rw [List.cons_append]
    simp only [runGroups, fetchGroup_all_ok engine _ hg]
    rw [ih rest _ _ (fun gr hgr => hok gr (List.mem_cons_of_mem g hgr))]
    simp

/-- Claim C4 counterexample: with focus `[summary, zones, schedules]` and a
`FileNotFoundError` raised while fetching zones, the error is NOT captured
under `zones` only — it is recorded under all three requested section
names — and `schedules` is NOT fetched at all (the single `try` block
aborts the remaining sections); only the already-fetched `summary` result
survives.  And with focus `[surfaces, materials]` and materials raising,
even the already-read surfaces data is lost: the envelope helper raises
before its group dict is merged, so results is EMPTY although surfaces was
invoked. -/
theorem inspect_section_failure_counterexample :
    inspectModel engFnfZones (some ["summary", "zones", "schedules"])
      = ⟨["summary", "zones", "schedules"],
         [("summary", "data:summary")],
         [("summary", "File not found: zmsg"),
          ("zones", "File not found: zmsg"),
          ("schedules", "File not found: zmsg")],
         ["summary", "zones"]⟩ ∧
    inspectModel engFnfMaterials (some ["surfaces", "materials"])
      = ⟨["surfaces", "materials"],
         [],
         [("surfaces", "File not found: mmsg"),
          ("materials", "File not found: mmsg")],
         ["surfaces", "materials"]⟩ := by
  decide

/-- Claim C4 (amended): the section readers of `inspect_model` run inside
one shared `try` block, grouped as in `fetchGroups` (summary, zones and
schedules committed individually; surfaces/materials and
people/lights/electric_equipment committed only as whole helper groups).
When the first non-successful reader k raises, the walk stops there
(readers after k are never invoked); a `FileNotFoundError` is recorded
under EVERY normalized section name — not only under k — and any other
exception under the single key `aggregation`; results retain exactly the
sections of the groups fully fetched before the failing group — sections
of the failing group are lost even when their reader already succeeded. -/
theorem inspect_section_failure_amended (engine : InspectEngine)
    (focus : Option (List String)) (gpre grest : List (List String))
    (g pre rest : List String) (k : String)
    (hseq : fetchGroups = gpre ++ g :: grest)
    (hok : ∀ gr ∈ gpre, ∀ j ∈ gr.filter (· ∈ normalizeFocus focus),
      fetchIsOk (engine j) = true)
    (hg : g.filter (· ∈ normalizeFocus focus) = pre ++ k :: rest)
    (hpre : ∀ j ∈ pre, fetchIsOk (engine j) = true) :
    (∀ msg, engine k = .fnf msg →
      inspectModel engine focus
        = ⟨normalizeFocus focus,
           (gpre.map fun gr => (gr.filter (· ∈ normalizeFocus focus)).map
             fun j => (j, fetchVal (engine j))).flatten,
           (dedupKeep (normalizeFocus focus)).map
             (fun s => (s, "File not found: " ++ msg)),
           (gpre.map fun gr => gr.filter (· ∈ normalizeFocus focus)).flatten
             ++ (pre ++ [k])⟩) ∧
    (∀ msg, engine k = .raised msg →
      inspectModel engine focus
        = ⟨normalizeFocus focus,
           (gpre.map fun gr => (gr.filter (· ∈ normalizeFocus focus)).map
             fun j => (j, fetchVal (engine j))).flatten,
           [("aggregation", msg)],
           (gpre.map fun gr => gr.filter (· ∈ normalizeFocus focus)).flatten
             ++ (pre ++ [k])⟩) := by
  constructor <;> intro msg hk
  · simp only [inspectModel]
    rw [hseq, runGroups_ok_prefix engine _ gpre (g :: grest) [] [] hok]
    simp only [runGroups, hg]
    rw [(fetchGroup_fail engine pre k rest hpre).1 msg hk]
    simp
  · simp only [inspectModel]
    rw [hseq, runGroups_ok_prefix engine _ gpre (g :: grest) [] [] hok]
    simp only [runGroups, hg]
    rw [(fetchGroup_fail engine pre k rest hpre).2 msg hk]
    simp

/-- Witness for the amended C4 at the concrete failing engine: materials
raises inside the envelope group, so the already-read surfaces section is
discarded and results is empty. -/
theorem inspect_section_failure_amended_witness :
    (fetchGroups
        = [["summary"], ["zones"], ["schedules"]]
          ++ ["surfaces", "materials"] :: [["people", "lights", "electric_equipment"]] ∧
      (∀ gr ∈ ([["summary"], ["zones"], ["schedules"]] : List (List String)),
        ∀ j ∈ gr.filter
          (· ∈ normalizeFocus (some ["surfaces", "materials"])),
          fetchIsOk (engFnfMaterials j) = true) ∧
      (["surfaces", "materials"] : List String).filter
          (· ∈ normalizeFocus (some ["surfaces", "materials"]))
        = ["surfaces"] ++ "materials" :: [] ∧
      (∀ j ∈ (["surfaces"] : List String), fetchIsOk (engFnfMaterials j) = true) ∧
      engFnfMaterials "materials" = .fnf "mmsg") ∧
    inspectModel engFnfMaterials (some ["surfaces", "materials"])
      = ⟨normalizeFocus (some ["surfaces", "materials"]),
         (([["summary"], ["zones"], ["schedules"]] : List (List String)).map
           fun gr => (gr.filter
             (· ∈ normalizeFocus (some ["surfaces", "materials"]))).map
             fun j => (j, fetchVal (engFnfMaterials j))).flatten,
         (dedupKeep (normalizeFocus (some ["surfaces", "materials"]))).map
           (fun s => (s, "File not found: " ++ "mmsg")),
         (([["summary"], ["zones"], ["schedules"]] : List (List String)).map
           fun gr => gr.filter
             (· ∈ normalizeFocus (some ["surfaces", "materials"]))).flatten
           ++ (["surfaces"] ++ ["materials"])⟩ :=
  ⟨⟨by decide, by decide, by decide, by decide, by decide⟩,
   (inspect_section_failure_amended engFnfMaterials (some ["surfaces", "materials"])
     [["summary"], ["zones"], ["schedules"]]
     [["people", "lights", "electric_equipment"]]
     ["surfaces", "materials"] ["surfaces"] [] "materials"
     (by decide) (by decide) (by decide) (by decide)).1 "mmsg" (by decide)⟩

/-- Claim C5 counterexample: an engine-raised `FileNotFoundError` escapes
both `hvac_loop_inspect` (discover action) and `simulation_manager` (run
action) to the protocol runtime — neither handler converts it to a
descriptive response string, refuting the universal no-escape policy for
registered tools. -/
theorem tool_handlers_propagate_counterexample :
    hvacLoopInspect discRaise topoPlain vizPlain "x.idf" "discover" "all"
        none none "png" true = .error "FileNotFoundError: x.idf" ∧
    simulationManager runSimRaise modSetOk "run" (some "x.idf") none none
        true false true true none none 0 none
      = .error "FileNotFoundError: x.idf" :=
  ⟨rfl, rfl⟩

/-- Claim C5 (amended): the no-escape propagation policy does not hold for
`hvac_loop_inspect` and `simulation_manager`: these two handlers have no
top-level exception guard, so an exception escapes them exactly when the
dispatched engine call raises — a discover/topology/visualize call escapes
with precisely the message the corresponding engine oracle raised, and a
run call with a truthy `idf_path` escapes precisely when the simulation
runner raised. -/
theorem tool_handlers_propagate_amended
    (discover : String → HvacResp) (topology : String → String → HvacResp)
    (visualize : String → Option String → Option String → String → Bool → HvacResp)
    (runSim : String → Option String → Option String → Bool → Bool → Bool → Bool →
      Except String String)
    (modSet : String → String → List (String × String) → Nat → Except String String)
    (idfPath : String) (types : String) (loopName outputPath : Option String)
    (imageFormat : String) (showLegend : Bool)
    (simIdf weather outdir : Option String) (annual dday readvars expand : Bool)
    (settings runPeriod : Option (List (String × String))) (rpIdx : Nat)
    (runId : Option String) (m : String) :
    (hvacLoopInspect discover topology visualize idfPath "discover" types
        loopName outputPath imageFormat showLegend = .error m
      ↔ discover idfPath = .raised m) ∧
    (truthyStr loopName = true →
      (hvacLoopInspect discover topology visualize idfPath "topology" types
          loopName outputPath imageFormat showLegend = .error m
        ↔ topology idfPath (loopName.getD "") = .raised m)) ∧
    (hvacLoopInspect discover topology visualize idfPath "visualize" types
        loopName outputPath imageFormat showLegend = .error m
      ↔ visualize idfPath loopName outputPath imageFormat showLegend = .raised m) ∧
    (truthyStr simIdf = true →
      (simulationManager runSim modSet "run" simIdf weather outdir annual dday
          readvars expand settings runPeriod rpIdx runId = .error m
        ↔ runSim (simIdf.getD "") weather outdir annual dday readvars expand
            = .error m)) := by
  refine ⟨?_, ?_, ?_, ?_⟩
  · cases hd : discover idfPath <;> simp [hvacLoopInspect, hd]
  · intro hln
    cases ht : topology idfPath (loopName.getD "") <;>
      simp [hvacLoopInspect, hln, ht]
  · cases hv : visualize idfPath loopName outputPath imageFormat showLegend <;>
      simp [hvacLoopInspect, hv]
  · intro hidf
    cases hr : runSim (simIdf.getD "") weather outdir annual dday readvars expand <;>
      simp [simulationManager, hidf, hr]

/-- Witness for the amended C5 at concrete raising oracles. -/
theorem tool_handlers_propagate_amended_witness :
    (truthyStr (some "x.idf") = true) ∧
    (hvacLoopInspect discRaise topoPlain vizPlain "x.idf" "discover" "all"
        none none "png" true = .error "FileNotFoundError: x.idf"
      ↔ discRaise "x.idf" = .raised "FileNotFoundError: x.idf") ∧
    (simulationManager runSimRaise modSetOk "run" (some "x.idf") none none
        true false true true none none 0 none = .error "FileNotFoundError: x.idf"
      ↔ runSimRaise ((some "x.idf").getD "") none none true false true true
          = .error "FileNotFoundError: x.idf") :=
  ⟨by decide,
   (tool_handlers_propagate_amended discRaise topoPlain vizPlain runSimRaise modSetOk
     "x.idf" "all" none none "png" true (some "x.idf") none none true false true true
     none none 0 none "FileNotFoundError: x.idf").1,
   (tool_handlers_propagate_amended discRaise topoPlain vizPlain runSimRaise modSetOk
     "x.idf" "all" none none "png" true (some "x.idf") none none true false true true
     none none 0 none "FileNotFoundError: x.idf").2.2.2 (by decide)⟩

set_option maxRecDepth 8192 in
/-- Claim C6 (code evaluated at the failing input): the severity patterns
are compiled without any leading-whitespace allowance and applied with the
anchored `re.match` to a line that is only right-stripped, so the marker is
NOT matched when the line begins with leading whitespace — the indented
form in which EnergyPlus actually writes `.err` lines.  At the failing
input (one Warning line indented by three spaces) the parser records
nothing in any bucket, while the same line without indentation opens the
Warning the claim describes, with its 1-based line number and the embedded
object reference extracted from the message. -/
theorem errorParser_indented_marker_missed :
    (parseErrLines ["   ** Warning ** Zone=\"Office 1\" missing"]).warnings = [] ∧
    (parseErrLines ["   ** Warning ** Zone=\"Office 1\" missing"]).severe_errors = [] ∧
    (parseErrLines ["   ** Warning ** Zone=\"Office 1\" missing"]).fatal_errors = [] ∧
    markerMatch "Warning" (rstrip "   ** Warning ** Zone=\"Office 1\" missing") = none ∧
    (parseErrLines ["** Warning ** Zone=\"Office 1\" missing"]).warnings
      = [⟨"Warning", "Zone=\"Office 1\" missing", [], 1, some "Zone=Office 1"⟩] := by
  decide

/-! Lemma layer for the logs action. -/

lemma takeLast_sublist (k : Nat) (l : List String) : List.Sublist (takeLast k l) l :=
  List.drop_sublist _ _

lemma takeLast_length_le (k : Nat) (l : List String) : (takeLast k l).length ≤ k := by
  unfold takeLast
  rw [List.length_drop]
  omega

/-- Claim C7 counterexample: the logs pipeline truncates BEFORE filtering
and drops (rather than keeps) lines whose timestamp fails to parse, and
its truncated flag is constantly false; the order the claim describes
(filter in full first, then truncate, flagging truncation) produces
different output on concrete inputs. -/
theorem server_logs_order_counterexample :
    logsSelect ["a1", "a2"] 1 (some "a1") none tsNone = [] ∧
    (specLogsSelect ["a1", "a2"] 1 (some "a1") none tsNone).1 = ["a1"] ∧
    logsSelect ["x"] 50 none (some 5) tsNone = [] ∧
    (specLogsSelect ["x"] 50 none (some 5) tsNone).1 = ["x"] ∧
    logsSelect ["a1", "a2"] 1 none none tsNone = ["a2"] ∧
    logsTruncatedFlag = false ∧
    (specLogsSelect ["a1", "a2"] 1 none none tsNone).2 = true := by
  decide

/-- Claim C7 (amended): the logs action first truncates each selected file
to the last `max 1 lines` entries, then applies the contains filter, then
the since filter, under which a line whose leading timestamp fails to parse
compares as the minimal instant and is therefore dropped for any positive
`since` threshold; the response truncated flag is initialized false and
never set.  Consequently the emitted lines are an order-preserving
selection of the file of length at most `max 1 lines`, every emitted line
satisfies the contains and since predicates, and the flag is always
false. -/
theorem server_logs_amended (fileLines : List String) (n : Nat) (c : Option String)
    (s : Option Nat) (tsOf : String → Option Nat) :
    List.Sublist (logsSelect fileLines n c s tsOf) fileLines ∧
    (logsSelect fileLines n c s tsOf).length ≤ max 1 n ∧
    (∀ ln ∈ logsSelect fileLines n c s tsOf, truthyStr c = true →
      pySubstr (c.getD "") ln = true) ∧
    (∀ ln ∈ logsSelect fileLines n c s tsOf, ∀ t, s = some t →
      (parseLineTs tsOf ln).getD 0 ≥ t) ∧
    logsTruncatedFlag = false := by
  refine ⟨?_, ?_, ?_, ?_, rfl⟩
  · simp only [logsSelect]
    cases s with
    | none =>
      by_cases hc : truthyStr c = true
      · rw [if_pos hc]
        exact (List.filter_sublist _).trans (takeLast_sublist _ _)
      · rw [if_neg hc]
        exact takeLast_sublist _ _
    | some t =>
      by_cases hc : truthyStr c = true
      · rw [if_pos hc]
        exact ((List.filter_sublist _).trans (List.filter_sublist _)).trans
          (takeLast_sublist _ _)
      · rw [if_neg hc]
        exact (List.filter_sublist _).trans (takeLast_sublist _ _)
  · simp only [logsSelect]
    have h1 := takeLast_length_le (max 1 n) fileLines
    cases s with
    | none =>
      by_cases hc : truthyStr c = true
      · rw [if_pos hc]
        exact le_trans (List.length_filter_le _ _) h1
      · rw [if_neg hc]
        exact h1
    | some t =>
      by_cases hc : truthyStr c = true
      · rw [if_pos hc]
        exact le_trans (List.length_filter_le _ _)
          (le_trans (List.length_filter_le _ _) h1)
      · rw [if_neg hc]
        exact le_trans (List.length_filter_le _ _) h1
  · intro ln hmem hc
    simp only [logsSelect] at hmem
    rw [if_pos hc] at hmem
    cases s with
    | none => simpa using (List.mem_filter.mp hmem).2
    | some t =>
      have := (List.mem_filter.mp hmem).1
      simpa using (List.mem_filter.mp this).2
  · intro ln hmem t hs
    subst hs
    simp only [logsSelect] at hmem
    simpa using (List.mem_filter.mp hmem).2

/-- Witness for the amended C7 at concrete inputs. -/
theorem server_logs_amended_witness :
    List.Sublist (logsSelect ["b1", "a2", "b3"] 2 (some "b") none tsNone)
      ["b1", "a2", "b3"] ∧
    (logsSelect ["b1", "a2", "b3"] 2 (some "b") none tsNone).length ≤ max 1 2 ∧
    pySubstr "b" "b3" = true ∧
    logsTruncatedFlag = false :=
  ⟨(server_logs_amended ["b1", "a2", "b3"] 2 (some "b") none tsNone).1,
   (server_logs_amended ["b1", "a2", "b3"] 2 (some "b") none tsNone).2.1,
   (server_logs_amended ["b1", "a2", "b3"] 2 (some "b") none tsNone).2.2.1 "b3"
     (by decide) (by decide),
   (server_logs_amended ["b1", "a2", "b3"] 2 (some "b") none tsNone).2.2.2.2⟩

/-! Lemma layer for the clear_logs action. -/

lemma fsLookup_remove (fs : Fs) (p q : String) :
    fsLookup (fsRemove fs p) q = if q = p then none else fsLookup fs q := by
  induction fs with
  | nil => by_cases h : q = p <;> simp [fsRemove, fsLookup, h]
  | cons e rest ih =>
    have hrec : fsRemove (e :: rest) p
        = if e.1 = p then fsRemove rest p else e :: fsRemove rest p := by
      by_cases hep : e.1 = p <;> simp [fsRemove, List.filter_cons, hep]
    rw [hrec]
    by_cases hep : e.1 = p
    · rw [if_pos hep, ih]
      by_cases hq : q = p
      · simp [hq]
      · have heq : ¬ e.1 = q := fun hh => hq (by rw [← hh, hep])
        simp [hq, fsLookup, heq]
    · rw [if_neg hep]
      show fsLookup (e :: fsRemove rest p) q = _
      by_cases heq : e.1 = q
      · have hq : ¬ q = p := fun hh => hep (by rw [heq, hh])
        simp [fsLookup, heq, hq]
      · simp [fsLookup, heq, ih]

lemma fsLookup_append_none {a : Fs} (b : Fs) (q : String)
    (h : fsLookup a q = none) : fsLookup (a ++ b) q = fsLookup b q := by
  induction a with
  | nil => rfl
  | cons e rest ih =>
    by_cases heq : e.1 = q
    · simp [fsLookup, heq] at h
    · simp [fsLookup, heq] at h ⊢
      exact ih h

lemma fsRename_dst {fs : Fs} {src : String} (dst : String) {c : String}
    (h : fsLookup fs src = some c) :
    fsLookup (fsRename fs src dst) dst = some c := by
  unfold fsRename
  rw [h]
  rw [fsLookup_append_none]
  · simp [fsLookup]
  · rw [fsLookup_remove]
    simp

lemma fsRename_src {fs : Fs} {src : String} (dst : String) {c : String}
    (h : fsLookup fs src = some c) (hne : src ≠ dst) :
    fsLookup (fsRename fs src dst) src = none := by
  unfold fsRename
  rw [h]
  rw [fsLookup_append_none]
  · have hds : ¬ dst = src := fun hh => hne hh.symm
    simp [fsLookup, hds]
  · rw [fsLookup_remove, if_neg hne, fsLookup_remove]
    simp

lemma fsLookup_append_some {a : Fs} (b : Fs) {q c : String}
    (h : fsLookup a q = some c) : fsLookup (a ++ b) q = some c := by
  induction a with
  | nil => simp [fsLookup] at h
  | cons e rest ih =>
    by_cases heq : e.1 = q
    · simp [fsLookup, heq] at h ⊢
      exact h
    · simp [fsLookup, heq] at h ⊢
      exact ih h

lemma fsRename_other {fs : Fs} (src dst : String) {q : String}
    (hqs : q ≠ src) (hqd : q ≠ dst) :
    fsLookup (fsRename fs src dst) q = fsLookup fs q := by
  unfold fsRename
  cases h : fsLookup fs src with
  | none => rfl
  | some c =>
    have hrm : fsLookup (fsRemove (fsRemove fs src) dst) q = fsLookup fs q := by
      rw [fsLookup_remove, if_neg hqd, fsLookup_remove, if_neg hqs]
    cases h2 : fsLookup fs q with
    | none =>
      rw [fsLookup_append_none _ _ (hrm.trans h2)]
      simp [fsLookup, Ne.symm hqd]
    | some c2 =>
      rw [fsLookup_append_some _ (hrm.trans h2)]

lemma fsExists_none {fs : Fs} {p : String} (h : fsLookup fs p = none) :
    fsExists fs p = false := by
  simp [fsExists, h]

lemma rotateLoop_pres (renameFails : String → Bool) :
    ∀ (plan : List (String × String)) (fs : Fs) (rot : List (String × String))
      (p d c : String),
      p ≠ d →
      (fsLookup fs p = some c ∨ (fsLookup fs d = some c ∧ fsLookup fs p = none)) →
      (∀ q ∈ plan, q.2 ≠ p) →
      (∀ q ∈ plan, q.1 ≠ d) →
      (∀ q ∈ plan, q.1 = p → q.2 = d) →
      (∀ q ∈ plan, q.2 = d → q.1 = p) →
      fsLookup (rotateLoop renameFails plan fs rot).1 p = some c
        ∨ fsLookup (rotateLoop renameFails plan fs rot).1 d = some c := by
  intro plan
  induction plan with
  | nil =>
    intro fs rot p d c hpd hinv hdp hsd hpdm hdpm
    rcases hinv with h | ⟨h, _⟩
    · exact Or.inl h
    · exact Or.inr h
  | cons item rest ih =>
    intro fs rot p d c hpd hinv hdp hsd hpdm hdpm
    obtain ⟨s, t⟩ := item
    have htp : t ≠ p := hdp (s, t) (List.mem_cons_self _ _)
    have hsd1 : s ≠ d := hsd (s, t) (List.mem_cons_self _ _)
    have hsp_td : s = p → t = d := fun hh => hpdm (s, t) (List.mem_cons_self _ _) hh
    have htd_sp : t = d → s = p := fun hh => hdpm (s, t) (List.mem_cons_self _ _) hh
    have hdpT := fun q hq => hdp q (List.mem_cons_of_mem _ hq)
    have hsdT := fun q hq => hsd q (List.mem_cons_of_mem _ hq)
    have hpdmT := fun q hq => hpdm q (List.mem_cons_of_mem _ hq)
    have hdpmT := fun q hq => hdpm q (List.mem_cons_of_mem _ hq)
    show fsLookup (rotateLoop renameFails ((s, t) :: rest) fs rot).1 p = some c ∨ _
    unfold rotateLoop
    by_cases hex : fsExists fs s = true
    · rw [if_pos hex]
      by_cases hf : renameFails s = true
      · rw [if_pos hf]
        exact ih fs rot p d c hpd hinv hdpT hsdT hpdmT hdpmT
      · rw [if_neg hf]
        apply ih
        · exact hpd
        · rcases hinv with hp | ⟨hd, hpn⟩
          · by_cases hsp : s = p
            · subst hsp
              have htd := hsp_td rfl
              subst htd
              exact Or.inr ⟨fsRename_dst _ hp, fsRename_src _ hp hpd⟩
            · have htd : t ≠ d := fun hh => hsp (htd_sp hh)
              exact Or.inl (by
                rw [fsRename_other s t (fun hh => hsp hh.symm) (Ne.symm htp)]
                exact hp)
          · by_cases hsp : s = p
            · subst hsp
              rw [fsExists_none hpn] at hex
              exact absurd hex (by simp)
            · have htd : t ≠ d := fun hh => hsp (htd_sp hh)
              refine Or.inr ⟨?_, ?_⟩
              · rw [fsRename_other s t (Ne.symm hsd1) (Ne.symm htd)]
                exact hd
              · rw [fsRename_other s t (fun hh => hsp hh.symm) (Ne.symm htp)]
                exact hpn
        · exact hdpT
        · exact hsdT
        · exact hpdmT
        · exact hdpmT
    · rw [if_neg hex]
      exact ih fs rot p d c hpd hinv hdpT hsdT hpdmT hdpmT

lemma mem_rotateTargets {dir select r : String} (h : r ∈ rotateTargets dir select) :
    r = serverLogPath dir ∨ r = errorLogPath dir := by
  unfold rotateTargets at h
  rcases List.mem_append.mp h with h | h
  · left
    by_cases hc : (select == "server" || select == "both") = true
    · rw [if_pos hc] at h
      simpa using h
    · rw [if_neg hc] at h
      simp at h
  · right
    by_cases hc : (select == "error" || select == "both") = true
    · rw [if_pos hc] at h
      simpa using h
    · rw [if_neg hc] at h
      simp at h

lemma mem_clearPlan {fs : Fs} {dir select ts : String} {q : String × String}
    (h : q ∈ ((rotateTargets dir select).filter (fsExists fs ·)).map
      fun p => (p, backupPath p ts)) :
    q = (serverLogPath dir, backupPath (serverLogPath dir) ts)
      ∨ q = (errorLogPath dir, backupPath (errorLogPath dir) ts) := by
  obtain ⟨r, hr, rfl⟩ := List.mem_map.mp h
  rcases mem_rotateTargets (List.mem_filter.mp hr).1 with h | h <;> subst h
  · exact Or.inl rfl
  · exact Or.inr rfl

/-- Claim C8: the clear_logs action never deletes a log file: in dry-run
mode the filesystem is left untouched (only the rename plan is returned),
and in apply mode each selected existing log file is renamed to its
stem_backup_timestamp sibling, an individual rename failure being skipped
without failing the call — so in every invocation the content of each of
the two log files survives, at its original name or at its backup name.
The hypotheses state that the four involved names (two logs, two backups)
are pairwise distinct, which holds for every actual log directory and
timestamp (see the witness). -/
theorem clear_logs_never_deletes (fs : Fs) (dir select mode ts : String)
    (renameFails : String → Bool)
    (h2 : backupPath (serverLogPath dir) ts ≠ serverLogPath dir)
    (h3 : backupPath (serverLogPath dir) ts ≠ errorLogPath dir)
    (h4 : backupPath (errorLogPath dir) ts ≠ serverLogPath dir)
    (h5 : backupPath (errorLogPath dir) ts ≠ errorLogPath dir)
    (h6 : backupPath (serverLogPath dir) ts ≠ backupPath (errorLogPath dir) ts) :
    (mode = "dry_run" → (clearLogs fs dir select mode ts renameFails).fs = fs) ∧
    (∀ p c, (p = serverLogPath dir ∨ p = errorLogPath dir) →
      fsLookup fs p = some c →
      fsLookup (clearLogs fs dir select mode ts renameFails).fs p = some c
        ∨ fsLookup (clearLogs fs dir select mode ts renameFails).fs
            (backupPath p ts) = some c) := by
  constructor
  · intro hmode
    subst hmode
    simp only [clearLogs]
    rw [if_pos (by rfl)]
  · intro p c hp hc
    by_cases hmode : (mode == "dry_run") = true
    · simp only [clearLogs]
      rw [if_pos hmode]
      exact Or.inl hc
    · simp only [clearLogs]
      rw [if_neg hmode]
      have hpd : p ≠ backupPath p ts := by
        rcases hp with rfl | rfl
        · exact Ne.symm h2
        · exact Ne.symm h5
      have hplan := fun (q : String × String) hq =>
        @mem_clearPlan fs dir select ts q hq
      have hres := rotateLoop_pres renameFails
        (((rotateTargets dir select).filter (fsExists fs ·)).map
          fun r => (r, backupPath r ts))
        fs [] p (backupPath p ts) c hpd (Or.inl hc)
        (by
          intro q hq
          rcases hplan q hq with rfl | rfl <;> rcases hp with rfl | rfl
          · exact h2
          · exact h3
          · exact h4
          · exact h5)
        (by
          intro q hq
          rcases hplan q hq with rfl | rfl <;> rcases hp with rfl | rfl
          · exact Ne.symm h2
          · exact Ne.symm h4
          · exact Ne.symm h3
          · exact Ne.symm h5)
        (by
          intro q hq hq1
          rcases hplan q hq with rfl | rfl <;> rw [← hq1])
        (by
          intro q hq hq2
          rcases hplan q hq with rfl | rfl <;> rcases hp with rfl | rfl
          · rfl
          · exact absurd hq2 h6
          · exact absurd hq2 (Ne.symm h6)
          · rfl)
      cases hrr : rotateLoop renameFails
        (((rotateTargets dir select).filter (fsExists fs ·)).map
          fun r => (r, backupPath r ts)) fs [] with
      | mk fs2 rotated =>
        rw [hrr] at hres
        exact hres

/-- Witness for C8 on a workspace with both log files, apply mode, and no
rename failures: the server log content survives at its name or at its
backup name. -/
theorem clear_logs_never_deletes_witness :
    fsLookup (clearLogs fsLogs "d" "both" "apply" "T" failsNone).fs
        (serverLogPath "d") = some "S"
      ∨ fsLookup (clearLogs fsLogs "d" "both" "apply" "T" failsNone).fs
          (backupPath (serverLogPath "d") "T") = some "S" :=
  (clear_logs_never_deletes fsLogs "d" "both" "apply" "T" failsNone
    (by decide) (by decide) (by decide) (by decide) (by decide)).2
    (serverLogPath "d") "S" (Or.inl rfl) (by decide)

/-- Claim C9 counterexample: with every environment variable unset and a
YAML `tool_surface.enable_wrappers: true`, nine exposure flags become true
but the sim wrapper flag stays at its environment default `false` — it is
defined only after the override function runs and is not assigned by it, so
it does NOT equal the YAML boolean. -/
theorem wrappers_override_counterexample :
    startupFlags envUnset (some true)
      = ⟨true, true, true, true, true, true, true, false, true, true⟩ ∧
    ¬ (startupFlags envUnset (some true)).sim = true := by
  decide

/-- Claim C9 (amended): a boolean `tool_surface.enable_wrappers` YAML key
overrides the nine wrapper exposure flags that exist when the override
function runs (inspect, output, summary, modify, server, hvac, file, model,
post), but NOT the sim wrapper flag, which always equals its own
environment variable because it is computed after the override and never
assigned by it. -/
theorem wrappers_override_amended (env : EnvMap) (b : Bool) :
    (startupFlags env (some b)).inspect = b ∧
    (startupFlags env (some b)).output = b ∧
    (startupFlags env (some b)).summary = b ∧
    (startupFlags env (some b)).modify = b ∧
    (startupFlags env (some b)).server = b ∧
    (startupFlags env (some b)).hvac = b ∧
    (startupFlags env (some b)).file = b ∧
    (startupFlags env (some b)).model = b ∧
    (startupFlags env (some b)).post = b ∧
    (startupFlags env (some b)).sim = parseBoolFlag env "MCP_EXPOSE_SIM_WRAPPERS" := by
  refine ⟨rfl, rfl, rfl, rfl, rfl, rfl, rfl, rfl, rfl, rfl⟩

/-- Claim C10: `analyze_root_cause` on any parsed-result mapping whose
`fatal_errors` and `severe_errors` keys are absent or empty (for example
the missing-file result) returns exactly a `None` primary issue, an empty
pattern list and an empty affected-objects list, without raising. -/
theorem analyze_root_cause_empty (fatal severe : Option (List ErrVal))
    (hf : fatal = none ∨ fatal = some [])
    (hs : severe = none ∨ severe = some []) :
    analyzeRootCause fatal severe = .ok ⟨none, [], []⟩ := by
  rcases hf with rfl | rfl <;> rcases hs with rfl | rfl <;> rfl

/-- Witness for C10 at the two concrete empty shapes. -/
theorem analyze_root_cause_empty_witness :
    ((none : Option (List ErrVal)) = none ∨ (none : Option (List ErrVal)) = some []) ∧
    ((some [] : Option (List ErrVal)) = none ∨ (some [] : Option (List ErrVal)) = some []) ∧
    analyzeRootCause none (some []) = .ok ⟨none, [], []⟩ :=
  ⟨Or.inl rfl, Or.inr rfl,
   analyze_root_cause_empty none (some []) (Or.inl rfl) (Or.inr rfl)⟩

end EPMCP
